import Mathlib

/-!
Verification of the frisbee-games scoring, aggregation, pricing and roster
validation utilities. The definitions below are a shallow embedding of the
TypeScript functions in the repository's stats utility module
(calculateFantasyScore, calculateHandlerScore, calculateCutterScore,
calculateDefenderScore, getMostRecentTournamentStats, scalePrice,
calculatePlayerPrices, calculateRosterCost, validateRoster).
JavaScript numbers are modelled as rationals, JavaScript strings as Lean
strings (JS string comparison is lexicographic, as is Lean's), and the
insertion-ordered JS Map as an association list updated in place.
-/

namespace Frisbee

/-- Fantasy (captain) score: 3 * assists + 3 * goals + 9 * ds - 3 * turnovers,
where turnovers = drops + throwaways. -/
def calculateFantasyScore (goals assists ds drops throwaways : ℚ) : ℚ :=
  let turnovers := drops + throwaways
  3 * assists + 3 * goals + 9 * ds - 3 * turnovers

/-- Handler score: 3 * assists + 1 * goals + 3 * ds - 1 * turnovers. -/
def calculateHandlerScore (goals assists ds drops throwaways : ℚ) : ℚ :=
  let turnovers := drops + throwaways
  3 * assists + 1 * goals + 3 * ds - 1 * turnovers

/-- Cutter score: 1 * assists + 3 * goals + 3 * ds - 1 * turnovers. -/
def calculateCutterScore (goals assists ds drops throwaways : ℚ) : ℚ :=
  let turnovers := drops + throwaways
  1 * assists + 3 * goals + 3 * ds - 1 * turnovers

/-- Defender score: 1 * assists + 1 * goals + 9 * ds - 1 * turnovers. -/
def calculateDefenderScore (goals assists ds drops throwaways : ℚ) : ℚ :=
  let turnovers := drops + throwaways
  1 * assists + 1 * goals + 9 * ds - 1 * turnovers

/-- One player's recorded counting stats for one game within one tournament.
The optional TS `timestamp?: string` is modelled as a `String` where the empty
string stands for a missing timestamp (the code only ever reads it through
`stat.timestamp || ''`). -/
structure PlayerStat where
  player_name : String
  player_team : String
  game_played : String
  tournament_played : String
  goals : ℚ
  assists : ℚ
  ds : ℚ
  drops : ℚ
  throwaways : ℚ
  timestamp : String
deriving DecidableEq

/-- Result record of getMostRecentTournamentStats. -/
structure MostRecentTournamentStats where
  tournament_name : String
  games_played : ℕ
  goals : ℚ
  assists : ℚ
  ds : ℚ
  drops : ℚ
  throwaways : ℚ
  captain_score : ℚ
deriving DecidableEq

/-- Per-tournament accumulator of the aggregation loop: the tracked timestamp,
the set of distinct game keys (kept as a duplicate-free list in insertion
order, mirroring the JS Set), and the running stat sums. -/
structure TData where
  timestamp : String
  games : List String
  goals : ℚ
  assists : ℚ
  ds : ℚ
  drops : ℚ
  throwaways : ℚ
deriving DecidableEq

/-- The composite game key `tournament|game` built by the aggregation loop. -/
def gameKey (s : PlayerStat) : String :=
  s.tournament_played ++ "|" ++ s.game_played

/-- JS `Set.add`: append the element unless it is already present. -/
def insertGame (g : String) (gs : List String) : List String :=
  if g ∈ gs then gs else gs ++ [g]

/-- The entry created for a tournament on first sight:
`{ timestamp, games: new Set(), goals: 0, ... }`. -/
def blankTData (ts : String) : TData :=
  { timestamp := ts, games := [], goals := 0, assists := 0, ds := 0,
    drops := 0, throwaways := 0 }

/-- The body of the aggregation loop applied to one stat row: add the game
key, add the counting stats, and take the row's timestamp when it is
non-empty and the tracked one is empty or lexicographically smaller. -/
def stepTData (d : TData) (s : PlayerStat) : TData :=
  { timestamp :=
      if s.timestamp ≠ "" ∧ (d.timestamp = "" ∨ d.timestamp < s.timestamp)
      then s.timestamp else d.timestamp
    games := insertGame (gameKey s) d.games
    goals := d.goals + s.goals
    assists := d.assists + s.assists
    ds := d.ds + s.ds
    drops := d.drops + s.drops
    throwaways := d.throwaways + s.throwaways }

/-- Lookup in an association list modelling the JS Map. -/
def mapGet {β : Type} : List (String × β) → String → Option β
  | [], _ => none
  | (k', v) :: rest, k => if k' = k then some v else mapGet rest k

/-- JS `Map.set`: replace the value at an existing key in place, otherwise
append the binding at the end (insertion order). -/
def mapSet {β : Type} : List (String × β) → String → β → List (String × β)
  | [], k, v => [(k, v)]
  | (k', v') :: rest, k, v =>
      if k' = k then (k, v) :: rest else (k', v') :: mapSet rest k v

/-- Processing of one row of the `playerStats.forEach` loop: create the
tournament's entry if absent, then mutate it through `stepTData`. -/
def processStat (m : List (String × TData)) (s : PlayerStat) :
    List (String × TData) :=
  let t := s.tournament_played
  let m1 := if (mapGet m t).isSome then m else mapSet m t (blankTData s.timestamp)
  match mapGet m1 t with
  | some d => mapSet m1 t (stepTData d s)
  | none => m1

/-- The tournament map built by the first loop of getMostRecentTournamentStats. -/
def buildTournamentMap (rows : List PlayerStat) : List (String × TData) :=
  rows.foldl processStat []

/-- One step of the `tournamentMap.forEach` selection loop. The accumulator is
(mostRecentTournament, mostRecentTimestamp), starting from (null, ''). -/
def selectStep (acc : Option String × String) (p : String × TData) :
    Option String × String :=
  if p.2.timestamp ≠ "" ∧ (acc.2 = "" ∨ acc.2 < p.2.timestamp)
  then (some p.1, p.2.timestamp) else acc

/-- The selection loop over the tournament map. -/
def selectMostRecent (m : List (String × TData)) : Option String × String :=
  m.foldl selectStep (none, "")

/-- JS `Array.from(tournamentMap.keys()).sort()`: the keys in JS default sort
order (lexicographic string comparison). -/
def sortedKeys (m : List (String × TData)) : List String :=
  (m.map Prod.fst).mergeSort (fun a b => decide (a ≤ b))

/-- JS `x || null` applied to `tournaments[0]`: an absent element (empty
array) and the empty string are both falsy and yield null. -/
def jsOrNull : Option String → Option String
  | none => none
  | some s => if s = "" then none else some s

/-- Shallow embedding of getMostRecentTournamentStats: group rows by
tournament, pick the tournament with the lexicographically greatest non-empty
tracked timestamp (falling back to the alphabetically first key when the
selection produced a falsy value), and return its aggregate record. -/
def getMostRecentTournamentStats (rows : List PlayerStat) :
    Option MostRecentTournamentStats :=
  if rows.isEmpty then none
  else
    let m := buildTournamentMap rows
    let sel0 := (selectMostRecent m).1
    let sel := if sel0 = none ∨ sel0 = some "" then jsOrNull (sortedKeys m).head?
               else sel0
    match sel with
    | none => none
    | some t =>
        if t = "" then none
        else
          match mapGet m t with
          | none => none
          | some d =>
              some { tournament_name := t
                     games_played := d.games.length
                     goals := d.goals
                     assists := d.assists
                     ds := d.ds
                     drops := d.drops
                     throwaways := d.throwaways
                     captain_score :=
                       calculateFantasyScore d.goals d.assists d.ds d.drops
                         d.throwaways }

/-- Input record of calculatePlayerPrices. -/
structure PlayerScore where
  player_name : String
  player_team : String
  captain_score : ℚ
deriving DecidableEq

/-- JS `Math.round`: round half away from zero upward, i.e. `⌊x + 1/2⌋`. -/
def jsRound (x : ℚ) : ℤ := ⌊x + 1 / 2⌋

/-- Shallow embedding of scalePrice: 11 for a degenerate range, otherwise
`Math.round(1 + (score - min) / (max - min) * 19)`. -/
def scalePrice (score minScore maxScore : ℚ) : ℤ :=
  if maxScore = minScore then 11
  else jsRound (1 + (score - minScore) / (maxScore - minScore) * 19)

/-- The composite map key `name|team` used by calculatePlayerPrices. -/
def playerKey (p : PlayerScore) : String :=
  p.player_name ++ "|" ++ p.player_team

/-- JS `Math.min(...scores)` over the non-empty score list of the pool
`p :: rest`. -/
def poolMin (p : PlayerScore) (rest : List PlayerScore) : ℚ :=
  (rest.map PlayerScore.captain_score).foldl min p.captain_score

/-- JS `Math.max(...scores)` over the non-empty score list of the pool
`p :: rest`. -/
def poolMax (p : PlayerScore) (rest : List PlayerScore) : ℚ :=
  (rest.map PlayerScore.captain_score).foldl max p.captain_score

/-- Shallow embedding of calculatePlayerPrices: empty pool gives an empty
map; otherwise each player's key is set to the scaled price of their score. -/
def calculatePlayerPrices (pool : List PlayerScore) : List (String × ℤ) :=
  match pool with
  | [] => []
  | p :: rest =>
      let minScore := poolMin p rest
      let maxScore := poolMax p rest
      (p :: rest).foldl
        (fun acc q =>
          mapSet acc (playerKey q) (scalePrice q.captain_score minScore maxScore))
        []

/-- Roster positions of the salary-cap league. -/
inductive RosterPosition where
  | captain
  | handler
  | cutter
  | defender
deriving DecidableEq

/-- One roster slot: a position together with the held player's price. -/
structure RosterEntry where
  position : RosterPosition
  price : ℚ
deriving DecidableEq

/-- SALARY_CAP_BUDGET. -/
def SALARY_CAP_BUDGET : ℚ := 70

/-- SALARY_CAP_ROSTER: the fixed per-position ceilings. -/
def rosterCeiling : RosterPosition → ℕ
  | .captain => 1
  | .handler => 2
  | .cutter => 2
  | .defender => 2

/-- The positionCounts record accumulated by validateRoster's forEach loop. -/
structure PositionCounts where
  captain : ℕ
  handler : ℕ
  cutter : ℕ
  defender : ℕ
deriving DecidableEq

/-- One step of the counting loop: increment the field of the entry's position. -/
def bumpCount (c : PositionCounts) (e : RosterEntry) : PositionCounts :=
  match e.position with
  | .captain => { c with captain := c.captain + 1 }
  | .handler => { c with handler := c.handler + 1 }
  | .cutter => { c with cutter := c.cutter + 1 }
  | .defender => { c with defender := c.defender + 1 }

/-- The position counts of a roster. -/
def countPositions (roster : List RosterEntry) : PositionCounts :=
  roster.foldl bumpCount ⟨0, 0, 0, 0⟩

/-- calculateRosterCost: sum of the prices. -/
def calculateRosterCost (roster : List RosterEntry) : ℚ :=
  roster.foldl (fun sum e => sum + e.price) 0

/-- The outcome of validateRoster, with the error string abstracted to its
reason: which position ceiling was violated, or the over-budget total cost. -/
inductive RosterValidation where
  | valid
  | invalidPosition (p : RosterPosition)
  | invalidBudget (totalCost : ℚ)
deriving DecidableEq

/-- Shallow embedding of validateRoster: the four ceiling checks in source
order (captain, handler, cutter, defender), then the budget check. -/
def validateRoster (roster : List RosterEntry) : RosterValidation :=
  let c := countPositions roster
  if rosterCeiling .captain < c.captain then .invalidPosition .captain
  else if rosterCeiling .handler < c.handler then .invalidPosition .handler
  else if rosterCeiling .cutter < c.cutter then .invalidPosition .cutter
  else if rosterCeiling .defender < c.defender then .invalidPosition .defender
  else
    let totalCost := calculateRosterCost roster
    if SALARY_CAP_BUDGET < totalCost then .invalidBudget totalCost
    else .valid

/-! ### Specification-side derived notions used by the theorem statements -/

/-- Number of roster entries holding a given position. -/
def countPos (roster : List RosterEntry) (p : RosterPosition) : ℕ :=
  (roster.filter (fun e => e.position = p)).length

/-- Sum of the prices of a roster. -/
def totalPrice (roster : List RosterEntry) : ℚ :=
  (roster.map RosterEntry.price).sum

/-! ### Roster bridge lemmas -/

theorem foldl_bumpCount (roster : List RosterEntry) (c : PositionCounts) :
    roster.foldl bumpCount c =
      ⟨c.captain + countPos roster .captain, c.handler + countPos roster .handler,
       c.cutter + countPos roster .cutter, c.defender + countPos roster .defender⟩ := by
  induction roster generalizing c with
  | nil => simp [countPos]
  | cons e r ih =>
      rw [List.foldl_cons, ih]
      cases c
      cases hp : e.position <;>
        simp [bumpCount, hp, countPos, List.filter_cons] <;> omega

theorem countPositions_eq (roster : List RosterEntry) :
    countPositions roster =
      ⟨countPos roster .captain, countPos roster .handler,
       countPos roster .cutter, countPos roster .defender⟩ := by
  simpa using foldl_bumpCount roster ⟨0, 0, 0, 0⟩

theorem calculateRosterCost_eq (roster : List RosterEntry) :
    calculateRosterCost roster = totalPrice roster := by
  have h : ∀ (l : List RosterEntry) (a : ℚ),
      l.foldl (fun sum e => sum + e.price) a = a + totalPrice l := by
    intro l
    induction l with
    | nil => intro a; simp [totalPrice]
    | cons e r ih => intro a; simp [totalPrice, ih, add_assoc]
  simpa [calculateRosterCost] using h roster 0

/-! ### Claim theorems: scoring formulas -/

/-- Claim C4: for all non-negative inputs, calculateFantasyScore returns
3 * assists + 3 * goals + 9 * ds - 3 * (drops + throwaways). -/
theorem calculateFantasyScore_formula (goals assists ds drops throwaways : ℚ)
    (hg : 0 ≤ goals) (ha : 0 ≤ assists) (hd : 0 ≤ ds)
    (hdr : 0 ≤ drops) (ht : 0 ≤ throwaways) :
    calculateFantasyScore goals assists ds drops throwaways =
      3 * assists + 3 * goals + 9 * ds - 3 * (drops + throwaways) := rfl

/-- Witness for C4: at (goals, assists, ds, drops, throwaways) = (2, 3, 1, 1, 0)
the fantasy score is 21. -/
theorem calculateFantasyScore_formula_witness :
    calculateFantasyScore 2 3 1 1 0 = 21 := by
  rw [calculateFantasyScore_formula 2 3 1 1 0 (by norm_num) (by norm_num)
    (by norm_num) (by norm_num) (by norm_num)]
  norm_num

/-- Claim C7: for all non-negative inputs, the handler, cutter and defender
scores are the stated integer-weighted linear combinations with
turnovers = drops + throwaways. -/
theorem roleScore_formulas (goals assists ds drops throwaways : ℚ)
    (hg : 0 ≤ goals) (ha : 0 ≤ assists) (hd : 0 ≤ ds)
    (hdr : 0 ≤ drops) (ht : 0 ≤ throwaways) :
    calculateHandlerScore goals assists ds drops throwaways =
        3 * assists + 1 * goals + 3 * ds - 1 * (drops + throwaways) ∧
    calculateCutterScore goals assists ds drops throwaways =
        1 * assists + 3 * goals + 3 * ds - 1 * (drops + throwaways) ∧
    calculateDefenderScore goals assists ds drops throwaways =
        1 * assists + 1 * goals + 9 * ds - 1 * (drops + throwaways) :=
  ⟨rfl, rfl, rfl⟩

/-- Witness for C7: at (2, 3, 1, 1, 0) the handler, cutter and defender scores
are 13, 11 and 13. -/
theorem roleScore_formulas_witness :
    calculateHandlerScore 2 3 1 1 0 = 13 ∧
    calculateCutterScore 2 3 1 1 0 = 11 ∧
    calculateDefenderScore 2 3 1 1 0 = 13 := by
  obtain ⟨h1, h2, h3⟩ := roleScore_formulas 2 3 1 1 0 (by norm_num) (by norm_num)
    (by norm_num) (by norm_num) (by norm_num)
  refine ⟨?_, ?_, ?_⟩
  · rw [h1]; norm_num
  · rw [h2]; norm_num
  · rw [h3]; norm_num

/-! ### Claim theorems: roster validation -/

/-- Claim C3: validateRoster reports a position-ceiling violation whenever some
position exceeds its ceiling (even if the budget is also exceeded); otherwise
it reports a budget violation exactly when the price sum exceeds 70; otherwise
the roster (the empty roster included) is valid. -/
theorem validateRoster_spec (roster : List RosterEntry) :
    ((∃ p, rosterCeiling p < countPos roster p) →
      ∃ q, validateRoster roster = .invalidPosition q ∧
        rosterCeiling q < countPos roster q) ∧
    ((∀ p, countPos roster p ≤ rosterCeiling p) →
      SALARY_CAP_BUDGET < totalPrice roster →
      validateRoster roster = .invalidBudget (totalPrice roster)) ∧
    ((∀ p, countPos roster p ≤ rosterCeiling p) →
      totalPrice roster ≤ SALARY_CAP_BUDGET →
      validateRoster roster = .valid) := by
  simp only [validateRoster, countPositions_eq, calculateRosterCost_eq]
  refine ⟨?_, ?_, ?_⟩
  · rintro ⟨p, hp⟩
    by_cases h1 : rosterCeiling .captain < countPos roster .captain
    · exact ⟨.captain, by rw [if_pos h1], h1⟩
    by_cases h2 : rosterCeiling .handler < countPos roster .handler
    · exact ⟨.handler, by rw [if_neg h1, if_pos h2], h2⟩
    by_cases h3 : rosterCeiling .cutter < countPos roster .cutter
    · exact ⟨.cutter, by rw [if_neg h1, if_neg h2, if_pos h3], h3⟩
    by_cases h4 : rosterCeiling .defender < countPos roster .defender
    · exact ⟨.defender, by rw [if_neg h1, if_neg h2, if_neg h3, if_pos h4], h4⟩
    exact absurd hp (by cases p <;> assumption)
  · intro hall hb
    rw [if_neg (not_lt.mpr (hall .captain)), if_neg (not_lt.mpr (hall .handler)),
      if_neg (not_lt.mpr (hall .cutter)), if_neg (not_lt.mpr (hall .defender)),
      if_pos hb]
  · intro hall hb
    rw [if_neg (not_lt.mpr (hall .captain)), if_neg (not_lt.mpr (hall .handler)),
      if_neg (not_lt.mpr (hall .cutter)), if_neg (not_lt.mpr (hall .defender)),
      if_neg (not_lt.mpr hb)]

/-- Witness for C3: the empty roster is valid, and a roster of two captains
priced 40 each (also over budget) is reported as a captain-ceiling violation. -/
theorem validateRoster_spec_witness :
    validateRoster [] = .valid ∧
    (∃ q, validateRoster [⟨.captain, 40⟩, ⟨.captain, 40⟩] = .invalidPosition q ∧
      rosterCeiling q < countPos [⟨.captain, 40⟩, ⟨.captain, 40⟩] q) := by
  constructor
  · exact (validateRoster_spec []).2.2 (fun p => by cases p <;> decide)
      (by norm_num [totalPrice, SALARY_CAP_BUDGET])
  · exact (validateRoster_spec _).1 ⟨.captain, by decide⟩

/-- Claim C10: the violation reported by validateRoster follows the fixed
checking order captain, handler, cutter, defender, independent of the order
of the offending entries in the roster list. -/
theorem validateRoster_order (roster : List RosterEntry) :
    (rosterCeiling .captain < countPos roster .captain →
      validateRoster roster = .invalidPosition .captain) ∧
    (countPos roster .captain ≤ rosterCeiling .captain →
      rosterCeiling .handler < countPos roster .handler →
      validateRoster roster = .invalidPosition .handler) ∧
    (countPos roster .captain ≤ rosterCeiling .captain →
      countPos roster .handler ≤ rosterCeiling .handler →
      rosterCeiling .cutter < countPos roster .cutter →
      validateRoster roster = .invalidPosition .cutter) ∧
    (countPos roster .captain ≤ rosterCeiling .captain →
      countPos roster .handler ≤ rosterCeiling .handler →
      countPos roster .cutter ≤ rosterCeiling .cutter →
      rosterCeiling .defender < countPos roster .defender →
      validateRoster roster = .invalidPosition .defender) := by
  simp only [validateRoster, countPositions_eq]
  refine ⟨?_, ?_, ?_, ?_⟩
  · intro h1
    rw [if_pos h1]
  · intro h1 h2
    rw [if_neg (not_lt.mpr h1), if_pos h2]
  · intro h1 h2 h3
    rw [if_neg (not_lt.mpr h1), if_neg (not_lt.mpr h2), if_pos h3]
  · intro h1 h2 h3 h4
    rw [if_neg (not_lt.mpr h1), if_neg (not_lt.mpr h2), if_neg (not_lt.mpr h3),
      if_pos h4]

/-- Witness for C10: a roster listing three handlers first and then two
captains reports the captain-ceiling violation, not the handler one. -/
theorem validateRoster_order_witness :
    validateRoster
      [⟨.handler, 1⟩, ⟨.handler, 1⟩, ⟨.handler, 1⟩, ⟨.captain, 1⟩, ⟨.captain, 1⟩] =
      .invalidPosition .captain :=
  (validateRoster_order _).1 (by decide)

/-! ### Association-list (JS Map) lemmas -/

theorem mapGet_mapSet_self {β : Type} (m : List (String × β)) (k : String) (v : β) :
    mapGet (mapSet m k v) k = some v := by
  induction m with
  | nil => simp [mapSet, mapGet]
  | cons x rest ih =>
      by_cases h : x.1 = k
      · simp [mapSet, h, mapGet]
      · simpa [mapSet, h, mapGet] using ih

theorem mapGet_mapSet_ne {β : Type} (m : List (String × β)) (k k' : String) (v : β)
    (h : k' ≠ k) : mapGet (mapSet m k v) k' = mapGet m k' := by
  induction m with
  | nil => simp [mapSet, mapGet, Ne.symm h]
  | cons x rest ih =>
      obtain ⟨k1, v1⟩ := x
      by_cases hx : k1 = k
      · simp [mapSet, hx, mapGet, Ne.symm h]
      · simp [mapSet, hx, mapGet, ih]

theorem mem_mapSet {β : Type} (m : List (String × β)) (k : String) (v : β)
    (x : String × β) (hx : x ∈ mapSet m k v) : x ∈ m ∨ x = (k, v) := by
  induction m with
  | nil => simpa [mapSet] using hx
  | cons y rest ih =>
      by_cases h : y.1 = k
      · rw [mapSet, if_pos h] at hx
        rcases List.mem_cons.mp hx with h1 | h1
        · exact Or.inr h1
        · exact Or.inl (List.mem_cons_of_mem _ h1)
      · rw [mapSet, if_neg h] at hx
        rcases List.mem_cons.mp hx with h1 | h1
        · exact Or.inl (h1 ▸ List.mem_cons_self _ _)
        · rcases ih h1 with h2 | h2
          · exact Or.inl (List.mem_cons_of_mem _ h2)
          · exact Or.inr h2

theorem mem_of_mapGet_eq_some {β : Type} (m : List (String × β)) (k : String)
    (v : β) (h : mapGet m k = some v) : (k, v) ∈ m := by
  induction m with
  | nil => simp [mapGet] at h
  | cons x rest ih =>
      by_cases hx : x.1 = k
      · rw [mapGet, if_pos hx] at h
        obtain ⟨k1, v1⟩ := x
        cases h
        cases hx
        exact List.mem_cons_self _ _
      · rw [mapGet, if_neg hx] at h
        exact List.mem_cons_of_mem _ (ih h)

theorem mapGet_isSome_mapSet {β : Type} (m : List (String × β)) (k k' : String)
    (v : β) (h : (mapGet m k').isSome ∨ k' = k) :
    (mapGet (mapSet m k v) k').isSome := by
  by_cases hk : k' = k
  · rw [hk, mapGet_mapSet_self]; rfl
  · rw [mapGet_mapSet_ne m k k' v hk]
    exact h.resolve_right hk

/-! ### Price-map construction lemmas -/

theorem mem_foldl_setPrice (f : PlayerScore → ℤ) (l : List PlayerScore)
    (acc : List (String × ℤ)) (kv : String × ℤ)
    (h : kv ∈ l.foldl (fun a q => mapSet a (playerKey q) (f q)) acc) :
    kv ∈ acc ∨ ∃ q ∈ l, kv.2 = f q := by
  induction l generalizing acc with
  | nil => exact Or.inl h
  | cons x l ih =>
      rcases ih (mapSet acc (playerKey x) (f x)) h with h1 | h1
      · rcases mem_mapSet _ _ _ _ h1 with h2 | h2
        · exact Or.inl h2
        · exact Or.inr ⟨x, List.mem_cons_self _ _, by rw [h2]⟩
      · obtain ⟨q, hq, hv⟩ := h1
        exact Or.inr ⟨q, List.mem_cons_of_mem _ hq, hv⟩

theorem mapGet_foldl_setPrice_of_absent (f : PlayerScore → ℤ) (l : List PlayerScore)
    (acc : List (String × ℤ)) (k : String) (h : ∀ q ∈ l, playerKey q ≠ k) :
    mapGet (l.foldl (fun a q => mapSet a (playerKey q) (f q)) acc) k = mapGet acc k := by
  induction l generalizing acc with
  | nil => rfl
  | cons x l ih =>
      rw [List.foldl_cons, ih _ (fun q hq => h q (List.mem_cons_of_mem _ hq)),
        mapGet_mapSet_ne _ _ _ _ (Ne.symm (h x (List.mem_cons_self _ _)))]

theorem mapGet_foldl_setPrice (f : PlayerScore → ℤ) (l : List PlayerScore)
    (acc : List (String × ℤ)) (hkeys : (l.map playerKey).Nodup)
    (q : PlayerScore) (hq : q ∈ l) :
    mapGet (l.foldl (fun a q => mapSet a (playerKey q) (f q)) acc) (playerKey q) =
      some (f q) := by
  induction l generalizing acc with
  | nil => cases hq
  | cons x l ih =>
      rw [List.map_cons, List.nodup_cons] at hkeys
      rcases List.mem_cons.mp hq with h1 | h1
      · subst h1
        rw [List.foldl_cons,
          mapGet_foldl_setPrice_of_absent f l _ _
            (fun q' hq' hk =>
              hkeys.1 (by rw [← hk]; exact List.mem_map_of_mem playerKey hq')),
          mapGet_mapSet_self]
      · rw [List.foldl_cons]
        exact ih _ hkeys.2 h1

theorem mapGet_isSome_foldl_setPrice (f : PlayerScore → ℤ) (l : List PlayerScore)
    (acc : List (String × ℤ)) (k : String)
    (h : (∃ q ∈ l, playerKey q = k) ∨ (mapGet acc k).isSome) :
    (mapGet (l.foldl (fun a q => mapSet a (playerKey q) (f q)) acc) k).isSome := by
  induction l generalizing acc with
  | nil => exact h.resolve_left (by rintro ⟨q, hq, _⟩; cases hq)
  | cons x l ih =>
      rw [List.foldl_cons]
      rcases h with ⟨q, hq, hk⟩ | h1
      · rcases List.mem_cons.mp hq with h2 | h2
        · exact ih _ (Or.inr (mapGet_isSome_mapSet _ _ _ _ (Or.inr (h2 ▸ hk.symm))))
        · exact ih _ (Or.inl ⟨q, h2, hk⟩)
      · exact ih _ (Or.inr (mapGet_isSome_mapSet _ _ _ _ (Or.inl h1)))

/-! ### Pool minimum / maximum lemmas -/

theorem foldl_min_le_init {α : Type} [LinearOrder α] :
    ∀ (l : List α) (a : α), l.foldl min a ≤ a
  | [], a => le_refl a
  | x :: l, a => le_trans (foldl_min_le_init l (min a x)) (min_le_left a x)

theorem foldl_min_le_mem {α : Type} [LinearOrder α] (l : List α) (a x : α)
    (hx : x ∈ l) : l.foldl min a ≤ x := by
  induction l generalizing a with
  | nil => cases hx
  | cons y l ih =>
      rcases List.mem_cons.mp hx with h | h
      · subst h
        rw [List.foldl_cons]
        exact le_trans (foldl_min_le_init l (min a x)) (min_le_right a x)
      · exact ih _ h

theorem init_le_foldl_max {α : Type} [LinearOrder α] :
    ∀ (l : List α) (a : α), a ≤ l.foldl max a
  | [], a => le_refl a
  | x :: l, a => le_trans (le_max_left a x) (init_le_foldl_max l (max a x))

theorem mem_le_foldl_max {α : Type} [LinearOrder α] (l : List α) (a x : α)
    (hx : x ∈ l) : x ≤ l.foldl max a := by
  induction l generalizing a with
  | nil => cases hx
  | cons y l ih =>
      rcases List.mem_cons.mp hx with h | h
      · subst h
        rw [List.foldl_cons]
        exact le_trans (le_max_right a x) (init_le_foldl_max l (max a x))
      · exact ih _ h

theorem foldl_max_le {α : Type} [LinearOrder α] (l : List α) (a b : α)
    (ha : a ≤ b) (h : ∀ x ∈ l, x ≤ b) : l.foldl max a ≤ b := by
  induction l generalizing a with
  | nil => exact ha
  | cons y l ih =>
      rw [List.foldl_cons]
      exact ih _ (max_le ha (h y (List.mem_cons_self _ _)))
        (fun x hx => h x (List.mem_cons_of_mem _ hx))

theorem poolMin_le (p : PlayerScore) (rest : List PlayerScore) (q : PlayerScore)
    (hq : q ∈ p :: rest) : poolMin p rest ≤ q.captain_score := by
  rcases List.mem_cons.mp hq with h | h
  · exact h ▸ foldl_min_le_init _ _
  · exact foldl_min_le_mem _ _ _ (List.mem_map_of_mem _ h)

theorem le_poolMax (p : PlayerScore) (rest : List PlayerScore) (q : PlayerScore)
    (hq : q ∈ p :: rest) : q.captain_score ≤ poolMax p rest := by
  rcases List.mem_cons.mp hq with h | h
  · exact h ▸ init_le_foldl_max _ _
  · exact mem_le_foldl_max _ _ _ (List.mem_map_of_mem _ h)

/-! ### scalePrice bounds -/

theorem jsRound_le_jsRound {x y : ℚ} (h : x ≤ y) : jsRound x ≤ jsRound y :=
  Int.floor_le_floor (by linarith)

theorem scalePrice_bounds (s mn mx : ℚ) (h1 : mn ≤ s) (h2 : s ≤ mx) :
    1 ≤ scalePrice s mn mx ∧ scalePrice s mn mx ≤ 20 := by
  rw [scalePrice]
  split_ifs with heq
  · norm_num
  · have hlt : mn < mx := lt_of_le_of_ne (le_trans h1 h2) (Ne.symm heq)
    have hpos : (0 : ℚ) < mx - mn := by linarith
    have hr0 : 0 ≤ (s - mn) / (mx - mn) := div_nonneg (by linarith) (le_of_lt hpos)
    have hr1 : (s - mn) / (mx - mn) ≤ 1 := (div_le_one hpos).mpr (by linarith)
    constructor
    · have : jsRound 1 ≤ jsRound (1 + (s - mn) / (mx - mn) * 19) :=
        jsRound_le_jsRound (by nlinarith)
      have h20 : jsRound 1 = 1 := by norm_num [jsRound]
      omega
    · have : jsRound (1 + (s - mn) / (mx - mn) * 19) ≤ jsRound 20 :=
        jsRound_le_jsRound (by nlinarith)
      have h20 : jsRound 20 = 20 := by norm_num [jsRound]
      omega

/-! ### Claim theorems: price scaling -/

/-- Claim C9: every price assigned over a non-empty pool is an integer in
the range 1 to 20. -/
theorem prices_in_range (p : PlayerScore) (rest : List PlayerScore) :
    ∀ kv ∈ calculatePlayerPrices (p :: rest), 1 ≤ kv.2 ∧ kv.2 ≤ 20 := by
  intro kv hkv
  rw [calculatePlayerPrices] at hkv
  rcases mem_foldl_setPrice _ _ _ _ hkv with h | ⟨q, hq, hv⟩
  · cases h
  · rw [hv]
    exact scalePrice_bounds _ _ _ (poolMin_le p rest q hq) (le_poolMax p rest q hq)

/-- Witness for C9: in the pool with scores 10, 20, 30 the entry priced 11 is
within the range 1 to 20. -/
theorem prices_in_range_witness :
    1 ≤ (("B|X", (11 : ℤ)) : String × ℤ).2 ∧
      (("B|X", (11 : ℤ)) : String × ℤ).2 ≤ 20 :=
  prices_in_range ⟨"A", "X", 10⟩ [⟨"B", "X", 20⟩, ⟨"C", "X", 30⟩] ("B|X", 11)
    (by simp [calculatePlayerPrices, poolMin, poolMax, playerKey, mapSet,
        scalePrice, jsRound]
        norm_num)

/-- Claim C5: when the pool minimum equals the pool maximum, every player's
key is priced 11. -/
theorem prices_all_eleven (p : PlayerScore) (rest : List PlayerScore)
    (h : poolMin p rest = poolMax p rest) :
    ∀ q ∈ p :: rest,
      mapGet (calculatePlayerPrices (p :: rest)) (playerKey q) = some 11 := by
  intro q hq
  rw [calculatePlayerPrices]
  have hsome := mapGet_isSome_foldl_setPrice
    (fun q => scalePrice q.captain_score (poolMin p rest) (poolMax p rest))
    (p :: rest) [] (playerKey q) (Or.inl ⟨q, hq, rfl⟩)
  obtain ⟨v, hv⟩ := Option.isSome_iff_exists.mp hsome
  rw [hv]
  rcases mem_foldl_setPrice _ _ _ _ (mem_of_mapGet_eq_some _ _ _ hv) with h1 | ⟨q', _, hv'⟩
  · cases h1
  · have hv2 : v = scalePrice q'.captain_score (poolMin p rest) (poolMax p rest) := hv'
    rw [hv2, scalePrice, if_pos h.symm]

/-- Witness for C5: in the all-tied pool with scores 5, 5, 5 every player is
priced 11. -/
theorem prices_all_eleven_witness :
    mapGet (calculatePlayerPrices [⟨"A", "X", 5⟩, ⟨"B", "X", 5⟩, ⟨"C", "X", 5⟩])
        "A|X" = some 11 ∧
    mapGet (calculatePlayerPrices [⟨"A", "X", 5⟩, ⟨"B", "X", 5⟩, ⟨"C", "X", 5⟩])
        "B|X" = some 11 ∧
    mapGet (calculatePlayerPrices [⟨"A", "X", 5⟩, ⟨"B", "X", 5⟩, ⟨"C", "X", 5⟩])
        "C|X" = some 11 := by
  have h := prices_all_eleven ⟨"A", "X", 5⟩ [⟨"B", "X", 5⟩, ⟨"C", "X", 5⟩]
    (by norm_num [poolMin, poolMax])
  refine ⟨?_, ?_, ?_⟩
  · simpa [playerKey] using h ⟨"A", "X", 5⟩ (by simp)
  · simpa [playerKey] using h ⟨"B", "X", 5⟩ (by simp)
  · simpa [playerKey] using h ⟨"C", "X", 5⟩ (by simp)

/-- Claim C2 (amended): when the pool's minimum and maximum scores differ and
the composite keys name|team are pairwise distinct, each player's key is
priced round(1 + (score - min) / (max - min) * 19). -/
theorem calculatePlayerPrices_formula (p : PlayerScore) (rest : List PlayerScore)
    (hkeys : ((p :: rest).map playerKey).Nodup)
    (hne : poolMin p rest ≠ poolMax p rest) :
    ∀ q ∈ p :: rest,
      mapGet (calculatePlayerPrices (p :: rest)) (playerKey q) =
        some (jsRound (1 + (q.captain_score - poolMin p rest) /
          (poolMax p rest - poolMin p rest) * 19)) := by
  intro q hq
  rw [calculatePlayerPrices, mapGet_foldl_setPrice _ _ _ hkeys q hq, scalePrice,
    if_neg (Ne.symm hne)]

/-- Witness for C2: the pool with scores 10, 20, 30 is priced 1, 11, 20
(the middle value 10.5 rounds to 11). -/
theorem calculatePlayerPrices_formula_witness :
    mapGet (calculatePlayerPrices [⟨"A", "X", 10⟩, ⟨"B", "X", 20⟩, ⟨"C", "X", 30⟩])
        "A|X" = some 1 ∧
    mapGet (calculatePlayerPrices [⟨"A", "X", 10⟩, ⟨"B", "X", 20⟩, ⟨"C", "X", 30⟩])
        "B|X" = some 11 ∧
    mapGet (calculatePlayerPrices [⟨"A", "X", 10⟩, ⟨"B", "X", 20⟩, ⟨"C", "X", 30⟩])
        "C|X" = some 20 := by
  have hmn : poolMin (⟨"A", "X", 10⟩ : PlayerScore)
      [⟨"B", "X", 20⟩, ⟨"C", "X", 30⟩] = 10 := by norm_num [poolMin]
  have hmx : poolMax (⟨"A", "X", 10⟩ : PlayerScore)
      [⟨"B", "X", 20⟩, ⟨"C", "X", 30⟩] = 30 := by norm_num [poolMax]
  have h := calculatePlayerPrices_formula ⟨"A", "X", 10⟩
    [⟨"B", "X", 20⟩, ⟨"C", "X", 30⟩]
    (by simp [playerKey]) (by rw [hmn, hmx]; norm_num)
  refine ⟨?_, ?_, ?_⟩
  · have h1 := h ⟨"A", "X", 10⟩ (by simp)
    rw [show playerKey (⟨"A", "X", 10⟩ : PlayerScore) = "A|X" from rfl,
      hmn, hmx] at h1
    rw [h1]
    norm_num [jsRound]
  · have h1 := h ⟨"B", "X", 20⟩ (by simp)
    rw [show playerKey (⟨"B", "X", 20⟩ : PlayerScore) = "B|X" from rfl,
      hmn, hmx] at h1
    rw [h1]
    norm_num [jsRound]
  · have h1 := h ⟨"C", "X", 30⟩ (by simp)
    rw [show playerKey (⟨"C", "X", 30⟩ : PlayerScore) = "C|X" from rfl,
      hmn, hmx] at h1
    rw [h1]
    norm_num [jsRound]

/-- Counterexample for C2 as stated: the two distinct players ("a|b", "c",
score 30) and ("a", "b|c", score 10) share the composite key "a|b|c", so the
second overwrites the first and the player with score 30 is not assigned the
price round(1 + (30 - 10) / (30 - 10) * 19) = 20 that the claim demands (the
key holds 1, the price of the score-10 player). -/
theorem calculatePlayerPrices_formula_cex :
    ¬ (∀ q ∈ [(⟨"a|b", "c", 30⟩ : PlayerScore), ⟨"a", "b|c", 10⟩],
        mapGet (calculatePlayerPrices
            [(⟨"a|b", "c", 30⟩ : PlayerScore), ⟨"a", "b|c", 10⟩])
            (playerKey q) =
          some (jsRound (1 + (q.captain_score - 10) / (30 - 10) * 19))) := by
  intro h
  have hmap : calculatePlayerPrices
      [(⟨"a|b", "c", 30⟩ : PlayerScore), ⟨"a", "b|c", 10⟩] = [("a|b|c", 1)] := by
    simp [calculatePlayerPrices, poolMin, poolMax, playerKey, mapSet,
      scalePrice, jsRound]
    norm_num
  have h1 := h ⟨"a|b", "c", 30⟩ (by simp)
  rw [hmap, show playerKey (⟨"a|b", "c", 30⟩ : PlayerScore) = "a|b|c" from rfl] at h1
  simp [mapGet] at h1
  norm_num [jsRound] at h1

/-- Claim C8: empty input produces an empty result rather than an error:
the aggregator returns null and the price calculator an empty map. -/
theorem empty_input_empty_output :
    getMostRecentTournamentStats [] = none ∧ calculatePlayerPrices [] = [] :=
  ⟨rfl, rfl⟩

/-! ### Specification-side notions for the tournament aggregator -/

/-- The rows of one tournament. -/
def rowsOf (rows : List PlayerStat) (t : String) : List PlayerStat :=
  rows.filter (fun s => s.tournament_played = t)

/-- The lexicographic maximum of the timestamps seen in a tournament's rows,
with the empty string for a missing timestamp (and as bottom). -/
def maxTimestamp (rows : List PlayerStat) (t : String) : String :=
  ((rowsOf rows t).map PlayerStat.timestamp).foldl max ""

/-- The distinct tournament names appearing in the rows. -/
def tournamentNames (rows : List PlayerStat) : List String :=
  (rows.map PlayerStat.tournament_played).dedup

/-- Sum of goals over a tournament's rows. -/
def sumGoals (rows : List PlayerStat) (t : String) : ℚ :=
  ((rowsOf rows t).map PlayerStat.goals).sum

/-- Sum of assists over a tournament's rows. -/
def sumAssists (rows : List PlayerStat) (t : String) : ℚ :=
  ((rowsOf rows t).map PlayerStat.assists).sum

/-- Sum of ds over a tournament's rows. -/
def sumDs (rows : List PlayerStat) (t : String) : ℚ :=
  ((rowsOf rows t).map PlayerStat.ds).sum

/-- Sum of drops over a tournament's rows. -/
def sumDrops (rows : List PlayerStat) (t : String) : ℚ :=
  ((rowsOf rows t).map PlayerStat.drops).sum

/-- Sum of throwaways over a tournament's rows. -/
def sumThrowaways (rows : List PlayerStat) (t : String) : ℚ :=
  ((rowsOf rows t).map PlayerStat.throwaways).sum

/-- The (tournament, game) pair of a row. -/
def gamePair (s : PlayerStat) : String × String :=
  (s.tournament_played, s.game_played)

/-- The number of distinct (tournament, game) pairs among a tournament's rows. -/
def distinctGamePairs (rows : List PlayerStat) (t : String) : ℕ :=
  (((rowsOf rows t).map gamePair).dedup).length

/-- The per-group aggregate produced by the forEach loop on the rows of one
tournament, in order: the first row creates the blank entry (carrying its
timestamp) and every row is then folded through `stepTData`. -/
def aggregateGroup : List PlayerStat → Option TData
  | [] => none
  | s :: l => some (l.foldl stepTData (stepTData (blankTData s.timestamp) s))

/-! ### String-order helpers -/

theorem empty_le_str (s : String) : "" ≤ s := by
  rw [String.le_iff_toList_le]
  exact List.nil_le

theorem str_eq_empty_of_le (s : String) (h : s ≤ "") : s = "" :=
  le_antisymm h (empty_le_str s)

theorem empty_lt_str (s : String) (h : s ≠ "") : "" < s :=
  lt_of_le_of_ne (empty_le_str s) (Ne.symm h)

/-! ### rowsOf basics -/

theorem rowsOf_cons (s : PlayerStat) (rows : List PlayerStat) (t : String) :
    rowsOf (s :: rows) t =
      if s.tournament_played = t then s :: rowsOf rows t else rowsOf rows t := by
  rw [rowsOf, List.filter_cons]
  by_cases h : s.tournament_played = t <;> simp [h, rowsOf]

theorem mem_rowsOf (s : PlayerStat) (rows : List PlayerStat) (t : String) :
    s ∈ rowsOf rows t ↔ s ∈ rows ∧ s.tournament_played = t := by
  simp [rowsOf]

theorem rowsOf_eq_nil_iff (rows : List PlayerStat) (t : String) :
    rowsOf rows t = [] ↔ ∀ s ∈ rows, s.tournament_played ≠ t := by
  simp [rowsOf, List.filter_eq_nil_iff]

theorem mem_tournamentNames (rows : List PlayerStat) (t : String) :
    t ∈ tournamentNames rows ↔ ∃ s ∈ rows, s.tournament_played = t := by
  simp [tournamentNames, List.mem_dedup]

/-! ### The tournament map's content -/

theorem processStat_get_self (m : List (String × TData)) (s : PlayerStat) :
    mapGet (processStat m s) s.tournament_played =
      some (stepTData ((mapGet m s.tournament_played).getD
        (blankTData s.timestamp)) s) := by
  cases h : mapGet m s.tournament_played with
  | some d => simp [processStat, h, mapGet_mapSet_self]
  | none => simp [processStat, h, mapGet_mapSet_self]

theorem processStat_get_ne (m : List (String × TData)) (s : PlayerStat)
    (t : String) (h : t ≠ s.tournament_played) :
    mapGet (processStat m s) t = mapGet m t := by
  cases hm : mapGet m s.tournament_played with
  | some d => simp [processStat, hm, mapGet_mapSet_ne _ _ _ _ h]
  | none =>
      simp [processStat, hm, mapGet_mapSet_self, mapGet_mapSet_ne _ _ _ _ h]

theorem mapGet_foldl_processStat (rows : List PlayerStat)
    (m : List (String × TData)) (t : String) :
    mapGet (rows.foldl processStat m) t =
      match mapGet m t with
      | some d => some ((rowsOf rows t).foldl stepTData d)
      | none => aggregateGroup (rowsOf rows t) := by
  induction rows generalizing m with
  | nil => cases h : mapGet m t <;> simp [h, rowsOf, aggregateGroup]
  | cons s rows ih =>
      rw [List.foldl_cons, ih (processStat m s), rowsOf_cons]
      by_cases hst : s.tournament_played = t
      · subst hst
        rw [if_pos rfl, processStat_get_self]
        cases h : mapGet m s.tournament_played with
        | some d => simp [h, aggregateGroup]
        | none => simp [h, aggregateGroup]
      · rw [if_neg hst, processStat_get_ne m s t (Ne.symm hst)]

theorem mapGet_buildTournamentMap (rows : List PlayerStat) (t : String) :
    mapGet (buildTournamentMap rows) t = aggregateGroup (rowsOf rows t) := by
  have h := mapGet_foldl_processStat rows [] t
  rw [buildTournamentMap]
  rw [h]
  rfl

/-! ### The fields of the per-group aggregate -/

theorem stepTData_timestamp (d : TData) (s : PlayerStat) :
    (stepTData d s).timestamp = max d.timestamp s.timestamp := by
  simp only [stepTData]
  split_ifs with h
  · rcases h.2 with h2 | h2
    · rw [h2]
      exact (max_eq_right (empty_le_str _)).symm
    · exact (max_eq_right (le_of_lt h2)).symm
  · push_neg at h
    by_cases hne : s.timestamp = ""
    · rw [hne]
      exact (max_eq_left (empty_le_str _)).symm
    · exact (max_eq_left (not_lt.mp (h hne).2)).symm

theorem foldl_stepTData_timestamp (l : List PlayerStat) (d : TData) :
    (l.foldl stepTData d).timestamp =
      (l.map PlayerStat.timestamp).foldl max d.timestamp := by
  induction l generalizing d with
  | nil => rfl
  | cons s l ih =>
      rw [List.foldl_cons, ih, List.map_cons, List.foldl_cons, stepTData_timestamp]

theorem foldl_stepTData_goals (l : List PlayerStat) (d : TData) :
    (l.foldl stepTData d).goals = d.goals + (l.map PlayerStat.goals).sum := by
  induction l generalizing d with
  | nil => simp
  | cons s l ih =>
      rw [List.foldl_cons, ih, List.map_cons, List.sum_cons]
      simp only [stepTData]
      ring

theorem foldl_stepTData_assists (l : List PlayerStat) (d : TData) :
    (l.foldl stepTData d).assists = d.assists + (l.map PlayerStat.assists).sum := by
  induction l generalizing d with
  | nil => simp
  | cons s l ih =>
      rw [List.foldl_cons, ih, List.map_cons, List.sum_cons]
      simp only [stepTData]
      ring

theorem foldl_stepTData_ds (l : List PlayerStat) (d : TData) :
    (l.foldl stepTData d).ds = d.ds + (l.map PlayerStat.ds).sum := by
  induction l generalizing d with
  | nil => simp
  | cons s l ih =>
      rw [List.foldl_cons, ih, List.map_cons, List.sum_cons]
      simp only [stepTData]
      ring

theorem foldl_stepTData_drops (l : List PlayerStat) (d : TData) :
    (l.foldl stepTData d).drops = d.drops + (l.map PlayerStat.drops).sum := by
  induction l generalizing d with
  | nil => simp
  | cons s l ih =>
      rw [List.foldl_cons, ih, List.map_cons, List.sum_cons]
      simp only [stepTData]
      ring

theorem foldl_stepTData_throwaways (l : List PlayerStat) (d : TData) :
    (l.foldl stepTData d).throwaways =
      d.throwaways + (l.map PlayerStat.throwaways).sum := by
  induction l generalizing d with
  | nil => simp
  | cons s l ih =>
      rw [List.foldl_cons, ih, List.map_cons, List.sum_cons]
      simp only [stepTData]
      ring

theorem foldl_stepTData_games (l : List PlayerStat) (d : TData) :
    (l.foldl stepTData d).games =
      l.foldl (fun gs s => insertGame (gameKey s) gs) d.games := by
  induction l generalizing d with
  | nil => rfl
  | cons s l ih =>
      rw [List.foldl_cons, ih, List.foldl_cons]
      rfl

/-! ### Distinct-game counting -/

theorem insertGame_nodup (g : String) (gs : List String) (h : gs.Nodup) :
    (insertGame g gs).Nodup := by
  rw [insertGame]
  split_ifs with hg
  · exact h
  · simp [List.nodup_append, h, hg]

theorem mem_insertGame (g x : String) (gs : List String) :
    x ∈ insertGame g gs ↔ x ∈ gs ∨ x = g := by
  rw [insertGame]
  split_ifs with hg
  · constructor
    · exact Or.inl
    · rintro (h | rfl)
      · exact h
      · exact hg
  · simp

theorem foldl_insertGame_nodup (xs gs : List String) (h : gs.Nodup) :
    (xs.foldl (fun a x => insertGame x a) gs).Nodup := by
  induction xs generalizing gs with
  | nil => exact h
  | cons x xs ih => exact ih _ (insertGame_nodup x gs h)

theorem mem_foldl_insertGame (xs gs : List String) (y : String) :
    y ∈ xs.foldl (fun a x => insertGame x a) gs ↔ y ∈ gs ∨ y ∈ xs := by
  induction xs generalizing gs with
  | nil => simp
  | cons x xs ih =>
      rw [List.foldl_cons, ih, mem_insertGame]
      simp [or_assoc]

theorem foldl_insertGame_length (xs : List String) :
    (xs.foldl (fun a x => insertGame x a) []).length = xs.dedup.length := by
  have h1 : (xs.foldl (fun a x => insertGame x a) []).Nodup :=
    foldl_insertGame_nodup xs [] List.nodup_nil
  have h2 : xs.dedup.Nodup := List.nodup_dedup xs
  have hperm : List.Perm (xs.foldl (fun a x => insertGame x a) []) xs.dedup := by
    rw [List.perm_ext_iff_of_nodup h1 h2]
    intro a
    rw [mem_foldl_insertGame, List.mem_dedup]
    simp
  exact hperm.length_eq

theorem append_cancel_strings (a b c : String) (h : a ++ b = a ++ c) : b = c := by
  have hd : (a ++ b).data = (a ++ c).data := by rw [h]
  rw [String.data_append, String.data_append] at hd
  have hbc := List.append_cancel_left hd
  cases b
  cases c
  exact congrArg String.mk hbc

theorem dedup_length_map_injOn {α β : Type} [DecidableEq α] [DecidableEq β]
    (f : α → β) : ∀ (u : List α), (∀ x ∈ u, ∀ y ∈ u, f x = f y → x = y) →
      ((u.map f).dedup).length = (u.dedup).length
  | [], _ => rfl
  | x :: u, hinj => by
      have hrest : ∀ a ∈ u, ∀ b ∈ u, f a = f b → a = b :=
        fun a ha b hb => hinj a (List.mem_cons_of_mem _ ha) b (List.mem_cons_of_mem _ hb)
      by_cases hx : x ∈ u
      · rw [List.map_cons, List.dedup_cons_of_mem (List.mem_map_of_mem f hx),
          List.dedup_cons_of_mem hx]
        exact dedup_length_map_injOn f u hrest
      · have hfx : f x ∉ u.map f := by
          intro hmem
          obtain ⟨y, hy, hfy⟩ := List.mem_map.mp hmem
          have hxy : y = x :=
            hinj y (List.mem_cons_of_mem _ hy) x (List.mem_cons_self _ _) hfy
          exact hx (hxy ▸ hy)
        rw [List.map_cons, List.dedup_cons_of_not_mem hfx,
          List.dedup_cons_of_not_mem hx, List.length_cons, List.length_cons,
          dedup_length_map_injOn f u hrest]

/-! ### The aggregate record of one tournament -/

theorem aggregateGroup_fields (l : List PlayerStat) (hl : l ≠ []) :
    ∃ d, aggregateGroup l = some d ∧
      d.timestamp = (l.map PlayerStat.timestamp).foldl max "" ∧
      d.goals = (l.map PlayerStat.goals).sum ∧
      d.assists = (l.map PlayerStat.assists).sum ∧
      d.ds = (l.map PlayerStat.ds).sum ∧
      d.drops = (l.map PlayerStat.drops).sum ∧
      d.throwaways = (l.map PlayerStat.throwaways).sum ∧
      d.games = l.foldl (fun gs s => insertGame (gameKey s) gs) [] := by
  match l, hl with
  | s :: l, _ =>
    have hfirst : (stepTData (blankTData s.timestamp) s).timestamp = s.timestamp := by
      rw [stepTData_timestamp]
      exact max_self _
    refine ⟨_, rfl, ?_, ?_, ?_, ?_, ?_, ?_, ?_⟩
    · rw [foldl_stepTData_timestamp, List.map_cons, List.foldl_cons, hfirst,
        max_eq_right (empty_le_str _)]
    · rw [foldl_stepTData_goals, List.map_cons, List.sum_cons,
        show (stepTData (blankTData s.timestamp) s).goals = 0 + s.goals from rfl]
      ring
    · rw [foldl_stepTData_assists, List.map_cons, List.sum_cons,
        show (stepTData (blankTData s.timestamp) s).assists = 0 + s.assists from rfl]
      ring
    · rw [foldl_stepTData_ds, List.map_cons, List.sum_cons,
        show (stepTData (blankTData s.timestamp) s).ds = 0 + s.ds from rfl]
      ring
    · rw [foldl_stepTData_drops, List.map_cons, List.sum_cons,
        show (stepTData (blankTData s.timestamp) s).drops = 0 + s.drops from rfl]
      ring
    · rw [foldl_stepTData_throwaways, List.map_cons, List.sum_cons,
        show (stepTData (blankTData s.timestamp) s).throwaways = 0 + s.throwaways
          from rfl]
      ring
    · rw [foldl_stepTData_games, List.foldl_cons]
      rfl

theorem mapGet_build_of_rowsOf_ne_nil (rows : List PlayerStat) (t : String)
    (h : rowsOf rows t ≠ []) :
    ∃ d, mapGet (buildTournamentMap rows) t = some d ∧
      d.timestamp = maxTimestamp rows t ∧
      d.goals = sumGoals rows t ∧
      d.assists = sumAssists rows t ∧
      d.ds = sumDs rows t ∧
      d.drops = sumDrops rows t ∧
      d.throwaways = sumThrowaways rows t ∧
      d.games.length = distinctGamePairs rows t := by
  obtain ⟨d, hag, hts, hg, ha, hds, hdr, hth, hgames⟩ :=
    aggregateGroup_fields (rowsOf rows t) h
  refine ⟨d, ?_, hts, hg, ha, hds, hdr, hth, ?_⟩
  · rw [mapGet_buildTournamentMap, hag]
  · rw [hgames, ← List.foldl_map gameKey (fun a x => insertGame x a),
      foldl_insertGame_length, distinctGamePairs,
      show (rowsOf rows t).map gameKey =
        ((rowsOf rows t).map gamePair).map (fun pr => pr.1 ++ "|" ++ pr.2) by
        rw [List.map_map]; rfl]
    apply dedup_length_map_injOn
    intro x hx y hy hxy
    obtain ⟨sx, hsx, rfl⟩ := List.mem_map.mp hx
    obtain ⟨sy, hsy, rfl⟩ := List.mem_map.mp hy
    have hxt : sx.tournament_played = t := ((mem_rowsOf _ _ _).mp hsx).2
    have hyt : sy.tournament_played = t := ((mem_rowsOf _ _ _).mp hsy).2
    simp only [gamePair] at hxy ⊢
    rw [hxt, hyt] at hxy ⊢
    have hgame : sx.game_played = sy.game_played :=
      append_cancel_strings (t ++ "|") _ _ hxy
    rw [hgame]

theorem mapGet_build_none (rows : List PlayerStat) (t : String)
    (h : rowsOf rows t = []) : mapGet (buildTournamentMap rows) t = none := by
  rw [mapGet_buildTournamentMap, h]
  rfl

/-! ### Keys of the tournament map -/

theorem mapSet_keys {β : Type} (m : List (String × β)) (k : String) (v : β) :
    (mapSet m k v).map Prod.fst =
      if k ∈ m.map Prod.fst then m.map Prod.fst else m.map Prod.fst ++ [k] := by
  induction m with
  | nil => simp [mapSet]
  | cons x rest ih =>
      obtain ⟨k1, v1⟩ := x
      by_cases h : k1 = k
      · simp [mapSet, h]
      · rw [mapSet, if_neg h, List.map_cons, List.map_cons, ih]
        by_cases hk : k ∈ rest.map Prod.fst
        · rw [if_pos hk, if_pos (by simp [hk])]
        · rw [if_neg hk, if_neg (by simp [hk, Ne.symm h]), List.cons_append]

theorem nodupKeys_mapSet {β : Type} (m : List (String × β)) (k : String) (v : β)
    (h : (m.map Prod.fst).Nodup) : ((mapSet m k v).map Prod.fst).Nodup := by
  rw [mapSet_keys]
  split_ifs with hk
  · exact h
  · simp [List.nodup_append, h, hk]

theorem nodupKeys_processStat (m : List (String × TData)) (s : PlayerStat)
    (h : (m.map Prod.fst).Nodup) : ((processStat m s).map Prod.fst).Nodup := by
  cases hm : mapGet m s.tournament_played with
  | some d =>
      simp only [processStat, hm, Option.isSome_some, if_pos]
      exact nodupKeys_mapSet _ _ _ h
  | none =>
      simp [processStat, hm, mapGet_mapSet_self]
      exact nodupKeys_mapSet _ _ _ (nodupKeys_mapSet _ _ _ h)

theorem nodupKeys_buildTournamentMap (rows : List PlayerStat) :
    ((buildTournamentMap rows).map Prod.fst).Nodup := by
  have h : ∀ (m : List (String × TData)), (m.map Prod.fst).Nodup →
      ((rows.foldl processStat m).map Prod.fst).Nodup := by
    induction rows with
    | nil => exact fun m hm => hm
    | cons s rows ih =>
        intro m hm
        rw [List.foldl_cons]
        exact ih _ (nodupKeys_processStat m s hm)
  exact h [] (by simp)

theorem mapGet_eq_some_of_mem {β : Type} (m : List (String × β)) (k : String)
    (v : β) (hnd : (m.map Prod.fst).Nodup) (hm : (k, v) ∈ m) :
    mapGet m k = some v := by
  induction m with
  | nil => cases hm
  | cons x rest ih =>
      obtain ⟨k1, v1⟩ := x
      rw [List.map_cons, List.nodup_cons] at hnd
      rcases List.mem_cons.mp hm with h | h
      · injection h with h1 h2
        subst h1
        subst h2
        rw [mapGet, if_pos rfl]
      · have hne : k1 ≠ k := by
          rintro rfl
          exact hnd.1 (by simpa using List.mem_map_of_mem Prod.fst h)
        rw [mapGet, if_neg hne]
        exact ih hnd.2 h

theorem mapGet_isSome_of_mem_keys {β : Type} (m : List (String × β)) (k : String)
    (h : k ∈ m.map Prod.fst) : ∃ v, mapGet m k = some v := by
  induction m with
  | nil => cases h
  | cons x rest ih =>
      obtain ⟨k1, v1⟩ := x
      by_cases hk : k1 = k
      · exact ⟨v1, by rw [mapGet, if_pos hk]⟩
      · have h0 : k = k1 ∨ ∃ x, (k, x) ∈ rest := by simpa using h
        have h1 : k ∈ rest.map Prod.fst := by
          rcases h0 with h1 | ⟨x, hx⟩
          · exact absurd h1.symm hk
          · simpa using List.mem_map_of_mem Prod.fst hx
        obtain ⟨v, hv⟩ := ih h1
        exact ⟨v, by rw [mapGet, if_neg hk]; exact hv⟩

theorem mem_keys_of_mapGet_eq_some {β : Type} (m : List (String × β)) (k : String)
    (v : β) (h : mapGet m k = some v) : k ∈ m.map Prod.fst := by
  have := mem_of_mapGet_eq_some m k v h
  simpa using List.mem_map_of_mem Prod.fst this

theorem keys_build_iff (rows : List PlayerStat) (t : String) :
    t ∈ (buildTournamentMap rows).map Prod.fst ↔ t ∈ tournamentNames rows := by
  constructor
  · intro h
    obtain ⟨v, hv⟩ := mapGet_isSome_of_mem_keys _ _ h
    rw [mapGet_buildTournamentMap] at hv
    by_cases hr : rowsOf rows t = []
    · rw [hr] at hv
      cases hv
    · obtain ⟨s, hs⟩ := List.exists_mem_of_ne_nil _ hr
      rw [mem_rowsOf] at hs
      exact (mem_tournamentNames rows t).mpr ⟨s, hs.1, hs.2⟩
  · intro h
    obtain ⟨s, hs, hst⟩ := (mem_tournamentNames rows t).mp h
    have hr : rowsOf rows t ≠ [] := by
      intro hnil
      exact ((rowsOf_eq_nil_iff rows t).mp hnil) s hs hst
    obtain ⟨d, hd, _⟩ := mapGet_build_of_rowsOf_ne_nil rows t hr
    exact mem_keys_of_mapGet_eq_some _ _ _ hd

/-! ### The selection loop -/

theorem foldl_selectStep_cases (m : List (String × TData))
    (acc : Option String × String) :
    m.foldl selectStep acc = acc ∨
      ∃ p ∈ m, m.foldl selectStep acc = (some p.1, p.2.timestamp) ∧
        p.2.timestamp ≠ "" := by
  induction m generalizing acc with
  | nil => exact Or.inl rfl
  | cons q m ih =>
      rw [List.foldl_cons]
      rcases ih (selectStep acc q) with h | ⟨p, hp, h1, h2⟩
      · rw [h]
        by_cases hc : q.2.timestamp ≠ "" ∧ (acc.2 = "" ∨ acc.2 < q.2.timestamp)
        · exact Or.inr ⟨q, List.mem_cons_self _ _,
            by rw [selectStep, if_pos hc], hc.1⟩
        · exact Or.inl (by rw [selectStep, if_neg hc])
      · exact Or.inr ⟨p, List.mem_cons_of_mem _ hp, h1, h2⟩

theorem selectStep_best_le (acc : Option String × String) (p : String × TData) :
    acc.2 ≤ (selectStep acc p).2 := by
  rw [selectStep]
  split_ifs with h
  · rcases h.2 with h2 | h2
    · rw [h2]
      exact empty_le_str _
    · exact le_of_lt h2
  · exact le_refl _

theorem foldl_selectStep_best_mono (m : List (String × TData))
    (acc : Option String × String) : acc.2 ≤ (m.foldl selectStep acc).2 := by
  induction m generalizing acc with
  | nil => exact le_refl _
  | cons q m ih =>
      rw [List.foldl_cons]
      exact le_trans (selectStep_best_le acc q) (ih _)

theorem selectStep_ts_le (acc : Option String × String) (p : String × TData) :
    p.2.timestamp ≤ (selectStep acc p).2 := by
  rw [selectStep]
  split_ifs with h
  · exact le_refl _
  · push_neg at h
    by_cases hne : p.2.timestamp = ""
    · rw [hne]
      exact empty_le_str _
    · exact not_lt.mp (h hne).2

theorem foldl_selectStep_ge (m : List (String × TData))
    (acc : Option String × String) (p : String × TData) (hp : p ∈ m) :
    p.2.timestamp ≤ (m.foldl selectStep acc).2 := by
  induction m generalizing acc with
  | nil => cases hp
  | cons q m ih =>
      rw [List.foldl_cons]
      rcases List.mem_cons.mp hp with h | h
      · subst h
        exact le_trans (selectStep_ts_le acc p) (foldl_selectStep_best_mono m _)
      · exact ih _ h

theorem foldl_selectStep_all_empty (m : List (String × TData))
    (acc : Option String × String) (h : ∀ p ∈ m, p.2.timestamp = "") :
    m.foldl selectStep acc = acc := by
  induction m generalizing acc with
  | nil => rfl
  | cons q m ih =>
      rw [List.foldl_cons, selectStep,
        if_neg (by simp [h q (List.mem_cons_self _ _)])]
      exact ih _ (fun p hp => h p (List.mem_cons_of_mem _ hp))

/-! ### The sorted-keys fallback -/

theorem sortedKeys_head_min (m : List (String × TData)) (hm : m ≠ []) :
    ∃ k0 rest, sortedKeys m = k0 :: rest ∧ k0 ∈ m.map Prod.fst ∧
      ∀ k ∈ m.map Prod.fst, k0 ≤ k := by
  have hperm := List.mergeSort_perm (m.map Prod.fst) (fun a b => decide (a ≤ b))
  cases hs : sortedKeys m with
  | nil =>
      rw [sortedKeys] at hs
      rw [hs] at hperm
      have := hperm.symm.length_eq
      simp at this
      exact absurd this hm
  | cons k0 rest =>
      have hmem : ∀ a, a ∈ k0 :: rest ↔ a ∈ m.map Prod.fst := by
        intro a
        rw [← hs, sortedKeys]
        exact List.mem_mergeSort
      refine ⟨k0, rest, rfl, (hmem k0).mp (List.mem_cons_self _ _), ?_⟩
      intro k hk
      have hsorted := @List.sorted_mergeSort String
        (fun a b : String => decide (a ≤ b))
        (fun a b c hab hbc => by
          simp only [decide_eq_true_eq] at hab hbc ⊢
          exact le_trans hab hbc)
        (fun a b => by
          rcases le_total a b with h | h <;> simp [h])
        (m.map Prod.fst)
      rw [show List.mergeSort (m.map Prod.fst) (fun a b : String => decide (a ≤ b)) =
        sortedKeys m from rfl, hs] at hsorted
      rcases List.mem_cons.mp ((hmem k).mpr hk) with h | h
      · exact h ▸ le_refl _
      · have := (List.pairwise_cons.mp hsorted).1 k h
        simpa using this

/-! ### Claim theorems: tournament aggregator -/

/-- Claim C1 (amended): for every non-empty row list containing a non-empty
timestamp, provided no tournament achieving the greatest maximum-seen
timestamp is named by the empty string, getMostRecentTournamentStats returns
the record of a tournament whose maximum-seen timestamp is lexicographically
greatest, with the stat fields summed over that tournament's rows,
games_played the number of distinct (tournament, game) pairs, and
captain_score the fantasy formula applied to the sums. -/
theorem getMostRecent_correct (rows : List PlayerStat)
    (hne : rows ≠ [])
    (hts : ∃ s ∈ rows, s.timestamp ≠ "")
    (hmax : ∀ t ∈ tournamentNames rows,
      (∀ u ∈ tournamentNames rows, maxTimestamp rows u ≤ maxTimestamp rows t) →
      t ≠ "") :
    ∃ r, getMostRecentTournamentStats rows = some r ∧
      r.tournament_name ∈ tournamentNames rows ∧
      (∀ t ∈ tournamentNames rows,
        maxTimestamp rows t ≤ maxTimestamp rows r.tournament_name) ∧
      r.goals = sumGoals rows r.tournament_name ∧
      r.assists = sumAssists rows r.tournament_name ∧
      r.ds = sumDs rows r.tournament_name ∧
      r.drops = sumDrops rows r.tournament_name ∧
      r.throwaways = sumThrowaways rows r.tournament_name ∧
      r.games_played = distinctGamePairs rows r.tournament_name ∧
      r.captain_score = calculateFantasyScore (sumGoals rows r.tournament_name)
        (sumAssists rows r.tournament_name) (sumDs rows r.tournament_name)
        (sumDrops rows r.tournament_name)
        (sumThrowaways rows r.tournament_name) := by
  obtain ⟨s0, hs0, hs0ts⟩ := hts
  have hr0 : rowsOf rows s0.tournament_played ≠ [] := by
    intro h
    exact ((rowsOf_eq_nil_iff _ _).mp h) s0 hs0 rfl
  obtain ⟨d0, hd0get, hd0ts, -, -, -, -, -, -⟩ :=
    mapGet_build_of_rowsOf_ne_nil rows s0.tournament_played hr0
  have hd0ne : d0.timestamp ≠ "" := by
    rw [hd0ts]
    intro hempty
    have hle : s0.timestamp ≤ maxTimestamp rows s0.tournament_played := by
      rw [maxTimestamp]
      exact mem_le_foldl_max _ _ _
        (List.mem_map_of_mem _ ((mem_rowsOf _ _ _).mpr ⟨hs0, rfl⟩))
    rw [hempty] at hle
    exact hs0ts (str_eq_empty_of_le _ hle)
  have hp0mem : (s0.tournament_played, d0) ∈ buildTournamentMap rows :=
    mem_of_mapGet_eq_some _ _ _ hd0get
  rcases foldl_selectStep_cases (buildTournamentMap rows) (none, "") with
    hsel | ⟨p, hpmem, hsel, hpne⟩
  · exfalso
    have hge := foldl_selectStep_ge (buildTournamentMap rows) (none, "") _ hp0mem
    rw [hsel] at hge
    exact hd0ne (str_eq_empty_of_le _ hge)
  · have hpget : mapGet (buildTournamentMap rows) p.1 = some p.2 :=
      mapGet_eq_some_of_mem _ _ _ (nodupKeys_buildTournamentMap rows) hpmem
    have hrp : rowsOf rows p.1 ≠ [] := by
      intro h
      rw [mapGet_build_none rows p.1 h] at hpget
      cases hpget
    obtain ⟨dp, hdpget, hdpts, hdpg, hdpa, hdpds, hdpdr, hdpth, hdpgames⟩ :=
      mapGet_build_of_rowsOf_ne_nil rows p.1 hrp
    have hdp : dp = p.2 := by
      rw [hpget] at hdpget
      injection hdpget with h
      exact h.symm
    have hpnames : p.1 ∈ tournamentNames rows := by
      obtain ⟨s, hs⟩ := List.exists_mem_of_ne_nil _ hrp
      rw [mem_rowsOf] at hs
      exact (mem_tournamentNames _ _).mpr ⟨s, hs.1, hs.2⟩
    have hargmax : ∀ t ∈ tournamentNames rows,
        maxTimestamp rows t ≤ maxTimestamp rows p.1 := by
      intro t htn
      obtain ⟨st, hst, hstt⟩ := (mem_tournamentNames _ _).mp htn
      have hrt : rowsOf rows t ≠ [] := fun hnil =>
        ((rowsOf_eq_nil_iff _ _).mp hnil) st hst hstt
      obtain ⟨dt, hdtget, hdtts, -, -, -, -, -, -⟩ :=
        mapGet_build_of_rowsOf_ne_nil rows t hrt
      have hmemt : (t, dt) ∈ buildTournamentMap rows :=
        mem_of_mapGet_eq_some _ _ _ hdtget
      have hge := foldl_selectStep_ge (buildTournamentMap rows) (none, "") _ hmemt
      rw [hsel] at hge
      rw [← hdtts, ← hdpts, hdp]
      exact hge
    have hp1ne : p.1 ≠ "" := hmax p.1 hpnames hargmax
    have hise : rows.isEmpty = false := by
      cases rows
      · exact absurd rfl hne
      · rfl
    have hsel0 : (selectMostRecent (buildTournamentMap rows)).1 = some p.1 := by
      rw [selectMostRecent, hsel]
    have hresult : getMostRecentTournamentStats rows =
        some { tournament_name := p.1
               games_played := p.2.games.length
               goals := p.2.goals
               assists := p.2.assists
               ds := p.2.ds
               drops := p.2.drops
               throwaways := p.2.throwaways
               captain_score := calculateFantasyScore p.2.goals p.2.assists
                 p.2.ds p.2.drops p.2.throwaways } := by
      simp only [getMostRecentTournamentStats, hise, Bool.false_eq_true,
        if_false, hsel0]
      rw [if_neg (by simp [hp1ne])]
      simp only [hpget, if_neg hp1ne]
    refine ⟨_, hresult, hpnames, hargmax, ?_, ?_, ?_, ?_, ?_, ?_, ?_⟩
    · rw [← hdp, hdpg]
    · rw [← hdp, hdpa]
    · rw [← hdp, hdpds]
    · rw [← hdp, hdpdr]
    · rw [← hdp, hdpth]
    · rw [← hdp, hdpgames]
    · rw [← hdp, hdpg, hdpa, hdpds, hdpdr, hdpth]

/-- Witness for C1: a single row for tournament "B" carrying a timestamp is
aggregated into the returned record. -/
theorem getMostRecent_correct_witness :
    ∃ r, getMostRecentTournamentStats
        [(⟨"p", "tm", "g1", "B", 1, 2, 3, 1, 0, "2024-01-02"⟩ : PlayerStat)] =
          some r ∧
      r.tournament_name ∈ tournamentNames
        [(⟨"p", "tm", "g1", "B", 1, 2, 3, 1, 0, "2024-01-02"⟩ : PlayerStat)] ∧
      (∀ t ∈ tournamentNames
          [(⟨"p", "tm", "g1", "B", 1, 2, 3, 1, 0, "2024-01-02"⟩ : PlayerStat)],
        maxTimestamp
            [(⟨"p", "tm", "g1", "B", 1, 2, 3, 1, 0, "2024-01-02"⟩ : PlayerStat)]
            t ≤
          maxTimestamp
            [(⟨"p", "tm", "g1", "B", 1, 2, 3, 1, 0, "2024-01-02"⟩ : PlayerStat)]
            r.tournament_name) ∧
      r.goals = sumGoals
        [(⟨"p", "tm", "g1", "B", 1, 2, 3, 1, 0, "2024-01-02"⟩ : PlayerStat)]
        r.tournament_name ∧
      r.assists = sumAssists
        [(⟨"p", "tm", "g1", "B", 1, 2, 3, 1, 0, "2024-01-02"⟩ : PlayerStat)]
        r.tournament_name ∧
      r.ds = sumDs
        [(⟨"p", "tm", "g1", "B", 1, 2, 3, 1, 0, "2024-01-02"⟩ : PlayerStat)]
        r.tournament_name ∧
      r.drops = sumDrops
        [(⟨"p", "tm", "g1", "B", 1, 2, 3, 1, 0, "2024-01-02"⟩ : PlayerStat)]
        r.tournament_name ∧
      r.throwaways = sumThrowaways
        [(⟨"p", "tm", "g1", "B", 1, 2, 3, 1, 0, "2024-01-02"⟩ : PlayerStat)]
        r.tournament_name ∧
      r.games_played = distinctGamePairs
        [(⟨"p", "tm", "g1", "B", 1, 2, 3, 1, 0, "2024-01-02"⟩ : PlayerStat)]
        r.tournament_name ∧
      r.captain_score = calculateFantasyScore
        (sumGoals [(⟨"p", "tm", "g1", "B", 1, 2, 3, 1, 0, "2024-01-02"⟩ : PlayerStat)]
          r.tournament_name)
        (sumAssists [(⟨"p", "tm", "g1", "B", 1, 2, 3, 1, 0, "2024-01-02"⟩ : PlayerStat)]
          r.tournament_name)
        (sumDs [(⟨"p", "tm", "g1", "B", 1, 2, 3, 1, 0, "2024-01-02"⟩ : PlayerStat)]
          r.tournament_name)
        (sumDrops [(⟨"p", "tm", "g1", "B", 1, 2, 3, 1, 0, "2024-01-02"⟩ : PlayerStat)]
          r.tournament_name)
        (sumThrowaways
          [(⟨"p", "tm", "g1", "B", 1, 2, 3, 1, 0, "2024-01-02"⟩ : PlayerStat)]
          r.tournament_name) :=
  getMostRecent_correct
    [(⟨"p", "tm", "g1", "B", 1, 2, 3, 1, 0, "2024-01-02"⟩ : PlayerStat)]
    (by decide) (by decide)
    (fun t ht _ => by
      have hb : t = "B" := by
        simpa [tournamentNames] using ht
      subst hb
      decide)

/-- Counterexample for C1 as stated: one row for the tournament named by the
empty string, carrying the non-empty timestamp "2024". The claim demands the
record of that tournament, but the empty tournament name is falsy in JS, the
alphabetical fallback re-runs on the key list ["" ] and `tournaments[0] || null`
yields null, so the function returns none despite the non-empty input with a
non-empty timestamp. -/
theorem getMostRecent_correct_cex :
    ([(⟨"p", "tm", "g", "", 0, 0, 0, 0, 0, "2024"⟩ : PlayerStat)] ≠
        ([] : List PlayerStat)) ∧
    (∃ s ∈ [(⟨"p", "tm", "g", "", 0, 0, 0, 0, 0, "2024"⟩ : PlayerStat)],
      s.timestamp ≠ "") ∧
    getMostRecentTournamentStats
      [(⟨"p", "tm", "g", "", 0, 0, 0, 0, 0, "2024"⟩ : PlayerStat)] = none := by
  refine ⟨by decide, by decide, ?_⟩
  simp [getMostRecentTournamentStats, buildTournamentMap, processStat, mapGet,
    mapSet, blankTData, stepTData, selectMostRecent, selectStep, sortedKeys,
    jsOrNull, insertGame, gameKey, List.mergeSort]

/-- Claim C6 (amended): for every non-empty row list in which no row carries a
non-empty timestamp, provided every tournament name is non-empty,
getMostRecentTournamentStats selects the alphabetically first tournament. -/
theorem getMostRecent_fallback (rows : List PlayerStat)
    (hne : rows ≠ [])
    (hts : ∀ s ∈ rows, s.timestamp = "")
    (hnames : ∀ s ∈ rows, s.tournament_played ≠ "") :
    ∃ r, getMostRecentTournamentStats rows = some r ∧
      r.tournament_name ∈ tournamentNames rows ∧
      ∀ t ∈ tournamentNames rows, r.tournament_name ≤ t := by
  have hall : ∀ p ∈ buildTournamentMap rows, p.2.timestamp = "" := by
    intro p hp
    have hpget : mapGet (buildTournamentMap rows) p.1 = some p.2 :=
      mapGet_eq_some_of_mem _ _ _ (nodupKeys_buildTournamentMap rows) hp
    have hrp : rowsOf rows p.1 ≠ [] := by
      intro h
      rw [mapGet_build_none rows p.1 h] at hpget
      cases hpget
    obtain ⟨dp, hdpget, hdpts, -, -, -, -, -, -⟩ :=
      mapGet_build_of_rowsOf_ne_nil rows p.1 hrp
    have hdp : dp = p.2 := by
      rw [hpget] at hdpget
      injection hdpget with h
      exact h.symm
    rw [← hdp, hdpts, maxTimestamp]
    apply str_eq_empty_of_le
    apply foldl_max_le
    · exact le_refl _
    · intro x hx
      obtain ⟨s, hs, rfl⟩ := List.mem_map.mp hx
      rw [hts s ((mem_rowsOf _ _ _).mp hs).1]
  have hsel : selectMostRecent (buildTournamentMap rows) = (none, "") :=
    foldl_selectStep_all_empty _ _ hall
  have hmne : buildTournamentMap rows ≠ [] := by
    obtain ⟨s, hs⟩ := List.exists_mem_of_ne_nil _ hne
    have hr : rowsOf rows s.tournament_played ≠ [] := fun h =>
      ((rowsOf_eq_nil_iff _ _).mp h) s hs rfl
    obtain ⟨d, hd, -, -, -, -, -, -, -⟩ :=
      mapGet_build_of_rowsOf_ne_nil rows s.tournament_played hr
    intro hmnil
    rw [hmnil] at hd
    cases hd
  obtain ⟨k0, rest, hks, hk0mem, hk0min⟩ :=
    sortedKeys_head_min (buildTournamentMap rows) hmne
  have hk0names : k0 ∈ tournamentNames rows := (keys_build_iff _ _).mp hk0mem
  have hk0ne : k0 ≠ "" := by
    obtain ⟨s, hs, hst⟩ := (mem_tournamentNames _ _).mp hk0names
    exact hst ▸ hnames s hs
  have hrk0 : rowsOf rows k0 ≠ [] := by
    obtain ⟨s, hs, hst⟩ := (mem_tournamentNames _ _).mp hk0names
    exact fun h => ((rowsOf_eq_nil_iff _ _).mp h) s hs hst
  obtain ⟨d, hdget, -, -, -, -, -, -, -⟩ :=
    mapGet_build_of_rowsOf_ne_nil rows k0 hrk0
  have hise : rows.isEmpty = false := by
    cases rows
    · exact absurd rfl hne
    · rfl
  have hsel0 : (selectMostRecent (buildTournamentMap rows)).1 = none := by
    rw [hsel]
  have hresult : getMostRecentTournamentStats rows =
      some { tournament_name := k0
             games_played := d.games.length
             goals := d.goals
             assists := d.assists
             ds := d.ds
             drops := d.drops
             throwaways := d.throwaways
             captain_score := calculateFantasyScore d.goals d.assists d.ds
               d.drops d.throwaways } := by
    simp only [getMostRecentTournamentStats, hise, Bool.false_eq_true,
      if_false, hsel0, true_or, if_true, hks, List.head?_cons, jsOrNull,
      if_neg hk0ne, hdget]
  refine ⟨_, hresult, hk0names, ?_⟩
  intro t htn
  exact hk0min t ((keys_build_iff _ _).mpr htn)

/-- Witness for C6: rows for tournaments "Zeta" and "Alpha" with no timestamps
select the alphabetically first tournament (the returned name precedes both
"Zeta" and "Alpha" in the order, hence equals "Alpha"). -/
theorem getMostRecent_fallback_witness :
    ∃ r, getMostRecentTournamentStats
        [(⟨"p", "tm", "g1", "Zeta", 1, 0, 0, 0, 0, ""⟩ : PlayerStat),
         ⟨"p", "tm", "g2", "Alpha", 2, 0, 0, 0, 0, ""⟩] = some r ∧
      r.tournament_name ∈ tournamentNames
        [(⟨"p", "tm", "g1", "Zeta", 1, 0, 0, 0, 0, ""⟩ : PlayerStat),
         ⟨"p", "tm", "g2", "Alpha", 2, 0, 0, 0, 0, ""⟩] ∧
      ∀ t ∈ tournamentNames
          [(⟨"p", "tm", "g1", "Zeta", 1, 0, 0, 0, 0, ""⟩ : PlayerStat),
           ⟨"p", "tm", "g2", "Alpha", 2, 0, 0, 0, 0, ""⟩],
        r.tournament_name ≤ t :=
  getMostRecent_fallback
    [(⟨"p", "tm", "g1", "Zeta", 1, 0, 0, 0, 0, ""⟩ : PlayerStat),
     ⟨"p", "tm", "g2", "Alpha", 2, 0, 0, 0, 0, ""⟩]
    (by decide) (by decide) (by decide)

/-- Counterexample for C6 as stated: one row with no timestamp whose
tournament is named by the empty string. The claim demands that the
alphabetically first tournament (the empty-named one) be selected, but
`tournaments[0] || null` treats the empty string as falsy and the function
returns none. -/
theorem getMostRecent_fallback_cex :
    ([(⟨"p", "tm", "g", "", 0, 0, 0, 0, 0, ""⟩ : PlayerStat)] ≠
        ([] : List PlayerStat)) ∧
    (∀ s ∈ [(⟨"p", "tm", "g", "", 0, 0, 0, 0, 0, ""⟩ : PlayerStat)],
      s.timestamp = "") ∧
    getMostRecentTournamentStats
      [(⟨"p", "tm", "g", "", 0, 0, 0, 0, 0, ""⟩ : PlayerStat)] = none := by
  refine ⟨by decide, by decide, ?_⟩
  simp [getMostRecentTournamentStats, buildTournamentMap, processStat, mapGet,
    mapSet, blankTData, stepTData, selectMostRecent, selectStep, sortedKeys,
    jsOrNull, insertGame, gameKey, List.mergeSort]

end Frisbee
